import Mathlib

/-!
Verification of the liquid-dsp automatic gain control unit (src/agc/src/agc.c).

The C code is embedded shallowly: the struct agc_s becomes a Lean structure over
the real numbers, each C function becomes a pure Lean function from state to
state (fallible setters return Except), and complex samples are members of the
Mathlib complex field.  Field updates mirror the assignment order of the source.
-/

namespace Agc

/-- The liquid_agc_type enumeration selecting the gain update law. -/
inductive liquid_agc_type where
  | DEFAULT : liquid_agc_type
  | LOG : liquid_agc_type
  | EXP : liquid_agc_type
deriving DecidableEq, Repr

/-- The struct agc_s from agc.c, fields in source order. -/
structure agc_s where
  type : liquid_agc_type
  e_target : ℝ
  g : ℝ
  g_min : ℝ
  g_max : ℝ
  BT : ℝ
  alpha : ℝ
  beta : ℝ
  e : ℝ
  e_hat : ℝ
  e_prime : ℝ
  is_locked : Bool

/-- The single error class raised by the validating setters. -/
inductive AgcError where
  | InvalidParameter : AgcError
deriving DecidableEq, Repr

/-- agc_create: default state.  The C code mallocs the struct, sets the type to
LIQUID_AGC_LOG, e_prime = e_hat = 1, g = 1, g_min = 1e-6, g_max = 1e+6, then
calls agc_set_target with 1.0 and agc_set_bandwidth with 0.0 and clears the
lock.  The field e is never initialized by the C code (and never read before it
is written); it is set to 0 here. -/
noncomputable def agc_create : agc_s :=
  { type := liquid_agc_type.LOG
    e_target := 1
    g := 1
    g_min := 1e-6
    g_max := 1e+6
    BT := 0
    alpha := Real.sqrt 0
    beta := 1 - Real.sqrt 0
    e := 0
    e_hat := 1
    e_prime := 1
    is_locked := false }

/-- agc_reset: e_prime and e_hat return to 1.0, then agc_unlock. -/
def agc_unlock (q : agc_s) : agc_s :=
  { q with is_locked := false }

/-- agc_lock: sets the locked flag. -/
def agc_lock (q : agc_s) : agc_s :=
  { q with is_locked := true }

/-- agc_reset from agc.c: e_prime = 1.0f, e_hat = 1.0f, then agc_unlock. -/
def agc_reset (q : agc_s) : agc_s :=
  agc_unlock { q with e_prime := 1, e_hat := 1 }

/-- agc_set_target: exits with an error when the argument is at most zero,
otherwise stores it in e_target. -/
noncomputable def agc_set_target (q : agc_s) (e_target : ℝ) :
    Except AgcError agc_s :=
  if e_target ≤ 0 then Except.error AgcError.InvalidParameter
  else Except.ok { q with e_target := e_target }

/-- agc_set_gain_limits: exits with an error when g_min exceeds g_max,
otherwise stores both limits. -/
noncomputable def agc_set_gain_limits (q : agc_s) (g_min g_max : ℝ) :
    Except AgcError agc_s :=
  if g_min > g_max then Except.error AgcError.InvalidParameter
  else Except.ok { q with g_min := g_min, g_max := g_max }

/-- agc_set_bandwidth: exits with an error when BT is negative or exceeds 1,
otherwise stores BT and derives alpha = sqrt BT and beta = 1 - alpha. -/
noncomputable def agc_set_bandwidth (q : agc_s) (BT : ℝ) :
    Except AgcError agc_s :=
  if BT < 0 then Except.error AgcError.InvalidParameter
  else if BT > 1 then Except.error AgcError.InvalidParameter
  else Except.ok { q with BT := BT, alpha := Real.sqrt BT, beta := 1 - Real.sqrt BT }

/-- The energy of a sample as the C code computes it: the real part of the
product of x with its conjugate. -/
noncomputable def energy (x : ℂ) : ℝ :=
  (x * (starRingEnd ℂ) x).re

/-- agc_estimate_gain_default from agc.c: zeta = 0.1 smoothing of the energy,
e_hat is the square root of the smoothed energy, and the new gain is the
beta-alpha blend of the old gain with e_target / e_hat. -/
noncomputable def agc_estimate_gain_default (q : agc_s) (x : ℂ) : agc_s :=
  let zeta : ℝ := 0.1
  let e : ℝ := energy x
  let e_prime : ℝ := e * zeta + q.e_prime * (1 - zeta)
  let e_hat : ℝ := Real.sqrt e_prime
  let g : ℝ := q.e_target / e_hat
  { q with e := e, e_prime := e_prime, e_hat := e_hat,
           g := q.beta * q.g + q.alpha * g }

/-- agc_estimate_gain_log from agc.c: same zeta = 0.1 energy smoothing, then a
multiplicative gain update proportional to the log of the gain error. -/
noncomputable def agc_estimate_gain_log (q : agc_s) (x : ℂ) : agc_s :=
  let zeta : ℝ := 0.1
  let e : ℝ := energy x
  let e_prime : ℝ := e * zeta + q.e_prime * (1 - zeta)
  let e_hat : ℝ := Real.sqrt e_prime
  let gain_ideal : ℝ := q.e_target / e_hat
  let log_gain_error : ℝ := Real.log gain_ideal - Real.log q.g
  { q with e := e, e_prime := e_prime, e_hat := e_hat,
           g := q.g * Real.exp (q.alpha * log_gain_error) }

/-- agc_estimate_gain_exp from agc.c: no smoothing filter; the gain moves by a
relative step of size beta toward the target output level.  In the source
e_hat = sqrt (energy x) and e_out = e_hat * g; both are written inline here. -/
noncomputable def agc_estimate_gain_exp (q : agc_s) (x : ℂ) : agc_s :=
  if Real.sqrt (energy x) * q.g > q.e_target then
    { q with e := energy x, e_hat := Real.sqrt (energy x),
             g := q.g * (1 - q.beta * (Real.sqrt (energy x) * q.g - q.e_target) /
                  (Real.sqrt (energy x) * q.g)) }
  else
    { q with e := energy x, e_hat := Real.sqrt (energy x),
             g := q.g * (1 + q.beta * (q.e_target - Real.sqrt (energy x) * q.g) /
                  q.e_target) }

/-- agc_limit_gain from agc.c: clamps g into the configured limits. -/
noncomputable def agc_limit_gain (q : agc_s) : agc_s :=
  if q.g > q.g_max then { q with g := q.g_max }
  else if q.g < q.g_min then { q with g := q.g_min }
  else q

/-- The switch statement of agc_execute, dispatching on the type tag. -/
noncomputable def agc_estimate_gain (q : agc_s) (x : ℂ) : agc_s :=
  match q.type with
  | liquid_agc_type.DEFAULT => agc_estimate_gain_default q x
  | liquid_agc_type.LOG => agc_estimate_gain_log q x
  | liquid_agc_type.EXP => agc_estimate_gain_exp q x

/-- agc_execute from agc.c: when locked, the output is x times the frozen gain
and nothing else happens; otherwise the selected law updates the gain, the gain
is clamped, and the output is x times the new gain. -/
noncomputable def agc_execute (q : agc_s) (x : ℂ) : agc_s × ℂ :=
  if q.is_locked then (q, x * (q.g : ℂ))
  else
    let q1 := agc_estimate_gain q x
    let q2 := agc_limit_gain q1
    (q2, x * (q2.g : ℂ))

/-- agc_get_signal_level from agc.c. -/
noncomputable def agc_get_signal_level (q : agc_s) : ℝ :=
  q.e_target / q.g

/-- agc_get_gain from agc.c. -/
def agc_get_gain (q : agc_s) : ℝ :=
  q.g

/-- The denominators of the divisions agc_execute performs on a given state and
sample, listed per branch of the source: the default and logarithmic laws
divide e_target by the freshly updated e_hat; the exponential law divides by
e_out in its decrease branch and by e_target in its increase branch; a locked
execute divides by nothing. -/
noncomputable def agc_execute_divisors (q : agc_s) (x : ℂ) : List ℝ :=
  if q.is_locked then []
  else
    match q.type with
    | liquid_agc_type.DEFAULT => [Real.sqrt (energy x * 0.1 + q.e_prime * (1 - 0.1))]
    | liquid_agc_type.LOG => [Real.sqrt (energy x * 0.1 + q.e_prime * (1 - 0.1))]
    | liquid_agc_type.EXP =>
        if Real.sqrt (energy x) * q.g > q.e_target
        then [Real.sqrt (energy x) * q.g]
        else [q.e_target]

/-- The states reachable from agc_create by the public operations: execute,
reset, lock, unlock, and the successful runs of the three setters. -/
inductive Reachable : agc_s → Prop where
  | create : Reachable agc_create
  | execute (q : agc_s) (x : ℂ) : Reachable q → Reachable (agc_execute q x).1
  | reset (q : agc_s) : Reachable q → Reachable (agc_reset q)
  | lock (q : agc_s) : Reachable q → Reachable (agc_lock q)
  | unlock (q : agc_s) : Reachable q → Reachable (agc_unlock q)
  | set_target (q : agc_s) (v : ℝ) (q2 : agc_s) : Reachable q →
      agc_set_target q v = Except.ok q2 → Reachable q2
  | set_gain_limits (q : agc_s) (a b : ℝ) (q2 : agc_s) : Reachable q →
      agc_set_gain_limits q a b = Except.ok q2 → Reachable q2
  | set_bandwidth (q : agc_s) (bt : ℝ) (q2 : agc_s) : Reachable q →
      agc_set_bandwidth q bt = Except.ok q2 → Reachable q2

/-- A locked state whose gain 5 lies outside its valid gain limits [0, 1]. -/
noncomputable def lockedOutOfRange : agc_s :=
  { type := liquid_agc_type.LOG
    e_target := 1
    g := 5
    g_min := 0
    g_max := 1
    BT := 0
    alpha := 0
    beta := 1
    e := 0
    e_hat := 1
    e_prime := 1
    is_locked := true }

/-- An unlocked state with the exponential law selected, used as a witness. -/
noncomputable def expState : agc_s :=
  { agc_create with type := liquid_agc_type.EXP }

/-- An unlocked state with the default law selected, used as a witness. -/
noncomputable def defaultState : agc_s :=
  { agc_create with type := liquid_agc_type.DEFAULT }

/-! ## Helper lemmas about the individual source functions -/

theorem energy_def (x : ℂ) : energy x = (x * (starRingEnd ℂ) x).re := rfl

theorem energy_nonneg (x : ℂ) : 0 ≤ energy x := by
  unfold energy
  rw [Complex.mul_conj]
  simpa using Complex.normSq_nonneg x

theorem estimate_gain_default_fields (q : agc_s) (x : ℂ) :
    (agc_estimate_gain_default q x).e = energy x ∧
    (agc_estimate_gain_default q x).e_prime = energy x * 0.1 + q.e_prime * (1 - 0.1) ∧
    (agc_estimate_gain_default q x).e_hat =
      Real.sqrt (energy x * 0.1 + q.e_prime * (1 - 0.1)) ∧
    (agc_estimate_gain_default q x).g =
      q.beta * q.g + q.alpha *
        (q.e_target / Real.sqrt (energy x * 0.1 + q.e_prime * (1 - 0.1))) :=
  ⟨rfl, rfl, rfl, rfl⟩

theorem estimate_gain_default_config (q : agc_s) (x : ℂ) :
    (agc_estimate_gain_default q x).g_min = q.g_min ∧
    (agc_estimate_gain_default q x).g_max = q.g_max ∧
    (agc_estimate_gain_default q x).e_target = q.e_target :=
  ⟨rfl, rfl, rfl⟩

theorem estimate_gain_log_fields (q : agc_s) (x : ℂ) :
    (agc_estimate_gain_log q x).e = energy x ∧
    (agc_estimate_gain_log q x).e_prime = energy x * 0.1 + q.e_prime * (1 - 0.1) ∧
    (agc_estimate_gain_log q x).e_hat =
      Real.sqrt (energy x * 0.1 + q.e_prime * (1 - 0.1)) ∧
    (agc_estimate_gain_log q x).g =
      q.g * Real.exp (q.alpha *
        (Real.log (q.e_target / Real.sqrt (energy x * 0.1 + q.e_prime * (1 - 0.1))) -
         Real.log q.g)) :=
  ⟨rfl, rfl, rfl, rfl⟩

theorem estimate_gain_log_config (q : agc_s) (x : ℂ) :
    (agc_estimate_gain_log q x).g_min = q.g_min ∧
    (agc_estimate_gain_log q x).g_max = q.g_max ∧
    (agc_estimate_gain_log q x).e_target = q.e_target :=
  ⟨rfl, rfl, rfl⟩

theorem estimate_gain_exp_fields (q : agc_s) (x : ℂ) :
    (agc_estimate_gain_exp q x).e = energy x ∧
    (agc_estimate_gain_exp q x).e_hat = Real.sqrt (energy x) ∧
    (agc_estimate_gain_exp q x).e_prime = q.e_prime ∧
    (agc_estimate_gain_exp q x).g =
      (if Real.sqrt (energy x) * q.g > q.e_target then
        q.g * (1 - q.beta * (Real.sqrt (energy x) * q.g - q.e_target) /
          (Real.sqrt (energy x) * q.g))
      else
        q.g * (1 + q.beta * (q.e_target - Real.sqrt (energy x) * q.g) /
          q.e_target)) := by
  unfold agc_estimate_gain_exp
  refine ⟨?_, ?_, ?_, ?_⟩ <;> split_ifs <;> rfl

theorem estimate_gain_exp_config (q : agc_s) (x : ℂ) :
    (agc_estimate_gain_exp q x).g_min = q.g_min ∧
    (agc_estimate_gain_exp q x).g_max = q.g_max ∧
    (agc_estimate_gain_exp q x).e_target = q.e_target := by
  unfold agc_estimate_gain_exp
  refine ⟨?_, ?_, ?_⟩ <;> split_ifs <;> rfl

theorem estimate_gain_of_default (q : agc_s) (x : ℂ)
    (h : q.type = liquid_agc_type.DEFAULT) :
    agc_estimate_gain q x = agc_estimate_gain_default q x := by
  unfold agc_estimate_gain
  rw [h]

theorem estimate_gain_of_log (q : agc_s) (x : ℂ)
    (h : q.type = liquid_agc_type.LOG) :
    agc_estimate_gain q x = agc_estimate_gain_log q x := by
  unfold agc_estimate_gain
  rw [h]

theorem estimate_gain_of_exp (q : agc_s) (x : ℂ)
    (h : q.type = liquid_agc_type.EXP) :
    agc_estimate_gain q x = agc_estimate_gain_exp q x := by
  unfold agc_estimate_gain
  rw [h]

theorem estimate_gain_config (q : agc_s) (x : ℂ) :
    (agc_estimate_gain q x).g_min = q.g_min ∧
    (agc_estimate_gain q x).g_max = q.g_max ∧
    (agc_estimate_gain q x).e_target = q.e_target := by
  unfold agc_estimate_gain
  cases q.type
  · exact estimate_gain_default_config q x
  · exact estimate_gain_log_config q x
  · exact estimate_gain_exp_config q x

theorem limit_gain_fields (q : agc_s) :
    (agc_limit_gain q).e = q.e ∧
    (agc_limit_gain q).e_prime = q.e_prime ∧
    (agc_limit_gain q).e_hat = q.e_hat ∧
    (agc_limit_gain q).g_min = q.g_min ∧
    (agc_limit_gain q).g_max = q.g_max ∧
    (agc_limit_gain q).e_target = q.e_target := by
  unfold agc_limit_gain
  refine ⟨?_, ?_, ?_, ?_, ?_, ?_⟩ <;> split_ifs <;> rfl

theorem limit_gain_g_clamp (q : agc_s) (h : q.g_min ≤ q.g_max) :
    (agc_limit_gain q).g = max q.g_min (min q.g_max q.g) := by
  unfold agc_limit_gain
  split_ifs with h1 h2
  · show q.g_max = _
    rw [min_eq_left h1.le, max_eq_right h]
  · show q.g_min = _
    rw [min_eq_right (not_lt.mp h1), max_eq_left h2.le]
  · show q.g = _
    rw [min_eq_right (not_lt.mp h1), max_eq_right (not_lt.mp h2)]

theorem limit_gain_g_bounds (q : agc_s) (h : q.g_min ≤ q.g_max) :
    q.g_min ≤ (agc_limit_gain q).g ∧ (agc_limit_gain q).g ≤ q.g_max := by
  unfold agc_limit_gain
  split_ifs with h1 h2
  · exact ⟨h, le_refl q.g_max⟩
  · exact ⟨le_refl q.g_min, h⟩
  · exact ⟨not_lt.mp h2, not_lt.mp h1⟩

theorem execute_locked_eq (q : agc_s) (x : ℂ) (h : q.is_locked = true) :
    agc_execute q x = (q, x * (q.g : ℂ)) := by
  unfold agc_execute
  rw [h]
  rfl

theorem execute_unlocked_eq (q : agc_s) (x : ℂ) (h : q.is_locked = false) :
    agc_execute q x =
      (agc_limit_gain (agc_estimate_gain q x),
       x * ((agc_limit_gain (agc_estimate_gain q x)).g : ℂ)) := by
  unfold agc_execute
  rw [h]
  rfl

theorem smoothed_energy_pos (x : ℂ) (ep : ℝ) (hp : 0 < ep) :
    0 < energy x * 0.1 + ep * (1 - 0.1) := by
  have h1 : 0 ≤ energy x * 0.1 := mul_nonneg (energy_nonneg x) (by norm_num)
  have h2 : 0 < ep * (1 - 0.1) := mul_pos hp (by norm_num)
  linarith

theorem set_target_ok_inv (q : agc_s) (v : ℝ) (q2 : agc_s)
    (h : agc_set_target q v = Except.ok q2) :
    0 < v ∧ q2 = { q with e_target := v } := by
  unfold agc_set_target at h
  split_ifs at h with hc
  injection h with h2
  exact ⟨not_le.mp hc, h2.symm⟩

theorem set_gain_limits_ok_inv (q : agc_s) (a b : ℝ) (q2 : agc_s)
    (h : agc_set_gain_limits q a b = Except.ok q2) :
    q2 = { q with g_min := a, g_max := b } := by
  unfold agc_set_gain_limits at h
  split_ifs at h with hc
  injection h with h2
  exact h2.symm

theorem set_bandwidth_ok_inv (q : agc_s) (bt : ℝ) (q2 : agc_s)
    (h : agc_set_bandwidth q bt = Except.ok q2) :
    q2 = { q with BT := bt, alpha := Real.sqrt bt, beta := 1 - Real.sqrt bt } := by
  unfold agc_set_bandwidth at h
  split_ifs at h with hc1 hc2
  injection h with h2
  exact h2.symm

theorem estimate_gain_e_prime_pos (q : agc_s) (x : ℂ) (hp : 0 < q.e_prime) :
    0 < (agc_estimate_gain q x).e_prime := by
  unfold agc_estimate_gain
  cases htag : q.type
  · rw [(estimate_gain_default_fields q x).2.1]
    exact smoothed_energy_pos x q.e_prime hp
  · rw [(estimate_gain_log_fields q x).2.1]
    exact smoothed_energy_pos x q.e_prime hp
  · rw [(estimate_gain_exp_fields q x).2.2.1]
    exact hp

theorem execute_preserves_inv (q : agc_s) (x : ℂ)
    (hp : 0 < q.e_prime) (ht : 0 < q.e_target) :
    0 < (agc_execute q x).1.e_prime ∧ 0 < (agc_execute q x).1.e_target := by
  cases hl : q.is_locked with
  | true =>
      rw [execute_locked_eq q x hl]
      exact ⟨hp, ht⟩
  | false =>
      rw [execute_unlocked_eq q x hl]
      dsimp only
      have l := limit_gain_fields (agc_estimate_gain q x)
      rw [l.2.1, l.2.2.2.2.2]
      refine ⟨estimate_gain_e_prime_pos q x hp, ?_⟩
      rw [(estimate_gain_config q x).2.2]
      exact ht

theorem reachable_inv (q : agc_s) (h : Reachable q) :
    0 < q.e_prime ∧ 0 < q.e_target := by
  induction h with
  | create =>
      constructor <;> norm_num [agc_create]
  | execute q x hq ih =>
      exact execute_preserves_inv q x ih.1 ih.2
  | reset q hq ih =>
      exact ⟨one_pos, ih.2⟩
  | lock q hq ih =>
      exact ih
  | unlock q hq ih =>
      exact ih
  | set_target q v q2 hq heq ih =>
      obtain ⟨hv, h2⟩ := set_target_ok_inv q v q2 heq
      subst h2
      exact ⟨ih.1, hv⟩
  | set_gain_limits q a b q2 hq heq ih =>
      have h2 := set_gain_limits_ok_inv q a b q2 heq
      subst h2
      exact ih
  | set_bandwidth q bt q2 hq heq ih =>
      have h2 := set_bandwidth_ok_inv q bt q2 heq
      subst h2
      exact ih

theorem divisors_locked (q : agc_s) (x : ℂ) (h : q.is_locked = true) :
    agc_execute_divisors q x = [] := by
  unfold agc_execute_divisors
  rw [h]
  rfl

theorem divisors_default (q : agc_s) (x : ℂ) (h : q.is_locked = false)
    (ht : q.type = liquid_agc_type.DEFAULT) :
    agc_execute_divisors q x =
      [Real.sqrt (energy x * 0.1 + q.e_prime * (1 - 0.1))] := by
  unfold agc_execute_divisors
  rw [h, ht]
  rfl

theorem divisors_log (q : agc_s) (x : ℂ) (h : q.is_locked = false)
    (ht : q.type = liquid_agc_type.LOG) :
    agc_execute_divisors q x =
      [Real.sqrt (energy x * 0.1 + q.e_prime * (1 - 0.1))] := by
  unfold agc_execute_divisors
  rw [h, ht]
  rfl

theorem divisors_exp (q : agc_s) (x : ℂ) (h : q.is_locked = false)
    (ht : q.type = liquid_agc_type.EXP) :
    agc_execute_divisors q x =
      (if Real.sqrt (energy x) * q.g > q.e_target
       then [Real.sqrt (energy x) * q.g]
       else [q.e_target]) := by
  unfold agc_execute_divisors
  rw [h, ht]
  rfl

/-! ## Claim theorems -/

/-- C1 (amended): for every state with a valid configuration (gain_min at most
gain_max) that is unlocked, the gain lies between gain_min and gain_max after
any call to execute.  (For locked states execute leaves the gain untouched, so
the bound can fail there; see the counterexample.) -/
theorem execute_unlocked_gain_within_limits (q : agc_s) (x : ℂ)
    (hvalid : q.g_min ≤ q.g_max) (hunlocked : q.is_locked = false) :
    q.g_min ≤ (agc_execute q x).1.g ∧ (agc_execute q x).1.g ≤ q.g_max := by
  rw [execute_unlocked_eq q x hunlocked]
  have hc := estimate_gain_config q x
  have hb := limit_gain_g_bounds (agc_estimate_gain q x)
    (by rw [hc.1, hc.2.1]; exact hvalid)
  rw [hc.1, hc.2.1] at hb
  exact hb

/-- C1 witness: the freshly created state is unlocked with valid limits, and
execute keeps its gain inside them. -/
theorem execute_unlocked_gain_within_limits_witness :
    agc_create.g_min ≤ (agc_execute agc_create 0).1.g ∧
    (agc_execute agc_create 0).1.g ≤ agc_create.g_max :=
  execute_unlocked_gain_within_limits agc_create 0 (by norm_num [agc_create]) rfl

/-- C1 counterexample: a locked state with valid limits [0, 1] but gain 5 keeps
its out-of-range gain across execute, refuting the claim for locked states. -/
theorem execute_locked_gain_outside_limits :
    lockedOutOfRange.g_min ≤ lockedOutOfRange.g_max ∧
    ¬ (lockedOutOfRange.g_min ≤ (agc_execute lockedOutOfRange 0).1.g ∧
       (agc_execute lockedOutOfRange 0).1.g ≤ lockedOutOfRange.g_max) := by
  constructor
  · norm_num [lockedOutOfRange]
  · intro hcon
    rw [execute_locked_eq lockedOutOfRange 0 rfl] at hcon
    have h2 := hcon.2
    norm_num [lockedOutOfRange] at h2

/-- C5: on a locked state, execute returns x times the frozen gain and leaves
the whole state unchanged; no estimation and no clamping happens. -/
theorem execute_locked_spec (q : agc_s) (x : ℂ) (h : q.is_locked = true) :
    agc_execute q x = (q, x * (q.g : ℂ)) := by
  unfold agc_execute
  rw [h]
  rfl

/-- C5 witness: executing a locked fresh state at x = 3 + 4i and at x = 0
returns x times the gain with the state untouched. -/
theorem execute_locked_spec_witness :
    agc_execute (agc_lock agc_create) (3 + 4 * Complex.I) =
      (agc_lock agc_create, (3 + 4 * Complex.I) * ((agc_lock agc_create).g : ℂ)) ∧
    agc_execute (agc_lock agc_create) 0 =
      (agc_lock agc_create, 0 * ((agc_lock agc_create).g : ℂ)) :=
  ⟨execute_locked_spec (agc_lock agc_create) (3 + 4 * Complex.I) rfl,
   execute_locked_spec (agc_lock agc_create) 0 rfl⟩

/-- C6: set_target fails with InvalidParameter exactly when the argument is at
most 0, and on success its only effect is to store the argument in e_target. -/
theorem set_target_spec (q : agc_s) (v : ℝ) :
    (v ≤ 0 → agc_set_target q v = Except.error AgcError.InvalidParameter) ∧
    (0 < v → agc_set_target q v = Except.ok { q with e_target := v }) := by
  constructor
  · intro h
    unfold agc_set_target
    rw [if_pos h]
  · intro h
    unfold agc_set_target
    rw [if_neg (not_le.mpr h)]

/-- C6 witness: set_target rejects -1 and accepts 2 on the fresh state. -/
theorem set_target_spec_witness :
    agc_set_target agc_create (-1) = Except.error AgcError.InvalidParameter ∧
    agc_set_target agc_create 2 = Except.ok { agc_create with e_target := 2 } :=
  ⟨(set_target_spec agc_create (-1)).1 (by norm_num),
   (set_target_spec agc_create 2).2 (by norm_num)⟩

/-- C7: set_gain_limits fails with InvalidParameter exactly when g_min exceeds
g_max (equal limits and nonpositive limits are accepted), and on success its
only effect is to store the two limits; the current gain is not re-clamped. -/
theorem set_gain_limits_spec (q : agc_s) (a b : ℝ) :
    (a > b → agc_set_gain_limits q a b = Except.error AgcError.InvalidParameter) ∧
    (a ≤ b → agc_set_gain_limits q a b =
      Except.ok { q with g_min := a, g_max := b }) := by
  constructor
  · intro h
    unfold agc_set_gain_limits
    rw [if_pos h]
  · intro h
    unfold agc_set_gain_limits
    rw [if_neg (not_lt.mpr h)]

/-- C7 witness: set_gain_limits rejects (10, 1) and accepts the equal negative
pair (-1, -1) on the fresh state, leaving the gain untouched in the record. -/
theorem set_gain_limits_spec_witness :
    agc_set_gain_limits agc_create 10 1 = Except.error AgcError.InvalidParameter ∧
    agc_set_gain_limits agc_create (-1) (-1) =
      Except.ok { agc_create with g_min := -1, g_max := -1 } :=
  ⟨(set_gain_limits_spec agc_create 10 1).1 (by norm_num),
   (set_gain_limits_spec agc_create (-1) (-1)).2 (by norm_num)⟩

/-- C8: set_bandwidth fails with InvalidParameter exactly when BT is negative
or exceeds 1; on success it stores BT and updates alpha = sqrt BT and
beta = 1 - alpha together, changing no other field. -/
theorem set_bandwidth_spec (q : agc_s) (bt : ℝ) :
    ((bt < 0 ∨ 1 < bt) →
      agc_set_bandwidth q bt = Except.error AgcError.InvalidParameter) ∧
    (0 ≤ bt → bt ≤ 1 →
      agc_set_bandwidth q bt =
        Except.ok { q with BT := bt, alpha := Real.sqrt bt,
                           beta := 1 - Real.sqrt bt }) := by
  constructor
  · intro h
    unfold agc_set_bandwidth
    rcases h with h | h
    · rw [if_pos h]
    · rw [if_neg (by linarith), if_pos h]
  · intro h0 h1
    unfold agc_set_bandwidth
    rw [if_neg (not_lt.mpr h0), if_neg (not_lt.mpr h1)]

/-- C8 witness: set_bandwidth rejects -0.1 and accepts 0.5, after which alpha
is exactly sqrt 0.5 and beta is exactly 1 - sqrt 0.5. -/
theorem set_bandwidth_spec_witness :
    agc_set_bandwidth agc_create (-0.1) = Except.error AgcError.InvalidParameter ∧
    agc_set_bandwidth agc_create 0.5 =
      Except.ok { agc_create with BT := 0.5, alpha := Real.sqrt 0.5,
                                  beta := 1 - Real.sqrt 0.5 } :=
  ⟨(set_bandwidth_spec agc_create (-0.1)).1 (Or.inl (by norm_num)),
   (set_bandwidth_spec agc_create 0.5).2 (by norm_num) (by norm_num)⟩

/-- C2: on an unlocked state under the logarithmic law, execute smooths the
energy with zeta = 0.1, takes e_hat as its square root, multiplies the gain by
exp (alpha times the log-domain gain error), clamps the result into the gain
limits, and outputs x times the new gain. -/
theorem execute_log_law_spec (q : agc_s) (x : ℂ)
    (hunlocked : q.is_locked = false) (htype : q.type = liquid_agc_type.LOG)
    (hvalid : q.g_min ≤ q.g_max) :
    (agc_execute q x).1.e = (x * (starRingEnd ℂ) x).re ∧
    (agc_execute q x).1.e_prime =
      0.1 * (x * (starRingEnd ℂ) x).re + 0.9 * q.e_prime ∧
    (agc_execute q x).1.e_hat =
      Real.sqrt (0.1 * (x * (starRingEnd ℂ) x).re + 0.9 * q.e_prime) ∧
    (agc_execute q x).1.g =
      max q.g_min (min q.g_max (q.g * Real.exp (q.alpha *
        (Real.log (q.e_target /
           Real.sqrt (0.1 * (x * (starRingEnd ℂ) x).re + 0.9 * q.e_prime)) -
         Real.log q.g)))) ∧
    (agc_execute q x).2 = x * ((agc_execute q x).1.g : ℂ) := by
  have harg : energy x * 0.1 + q.e_prime * (1 - 0.1) =
      0.1 * (x * (starRingEnd ℂ) x).re + 0.9 * q.e_prime := by
    unfold energy
    ring
  have hx := execute_unlocked_eq q x hunlocked
  rw [estimate_gain_of_log q x htype] at hx
  rw [hx]
  dsimp only
  obtain ⟨he, hep, heh, hg⟩ := estimate_gain_log_fields q x
  obtain ⟨l_e, l_ep, l_eh, l_gmin, l_gmax, l_et⟩ :=
    limit_gain_fields (agc_estimate_gain_log q x)
  have hcfg := estimate_gain_log_config q x
  have hvalid2 : (agc_estimate_gain_log q x).g_min ≤
      (agc_estimate_gain_log q x).g_max := by
    rw [hcfg.1, hcfg.2.1]
    exact hvalid
  refine ⟨?_, ?_, ?_, ?_, rfl⟩
  · rw [l_e, he, energy_def]
  · rw [l_ep, hep, harg]
  · rw [l_eh, heh, harg]
  · rw [limit_gain_g_clamp _ hvalid2, hcfg.1, hcfg.2.1, hg, harg]

/-- C2 witness: on the fresh state (logarithmic law) at x = 0, the smoothing
filter output after one execute is exactly the claimed blend. -/
theorem execute_log_law_spec_witness :
    (agc_execute agc_create 0).1.e_prime =
      0.1 * ((0 : ℂ) * (starRingEnd ℂ) 0).re + 0.9 * agc_create.e_prime :=
  (execute_log_law_spec agc_create 0 rfl rfl (by norm_num [agc_create])).2.1

/-- C3: on an unlocked state under the default law, execute smooths the energy
with zeta = 0.1, takes e_hat as its square root, and blends the old gain with
the ideal gain e_target / e_hat using beta and alpha, clamping the result into
the gain limits. -/
theorem execute_default_law_spec (q : agc_s) (x : ℂ)
    (hunlocked : q.is_locked = false) (htype : q.type = liquid_agc_type.DEFAULT)
    (hvalid : q.g_min ≤ q.g_max) :
    (agc_execute q x).1.e = (x * (starRingEnd ℂ) x).re ∧
    (agc_execute q x).1.e_prime =
      0.1 * (x * (starRingEnd ℂ) x).re + 0.9 * q.e_prime ∧
    (agc_execute q x).1.e_hat =
      Real.sqrt (0.1 * (x * (starRingEnd ℂ) x).re + 0.9 * q.e_prime) ∧
    (agc_execute q x).1.g =
      max q.g_min (min q.g_max (q.beta * q.g + q.alpha * (q.e_target /
        Real.sqrt (0.1 * (x * (starRingEnd ℂ) x).re + 0.9 * q.e_prime)))) := by
  have harg : energy x * 0.1 + q.e_prime * (1 - 0.1) =
      0.1 * (x * (starRingEnd ℂ) x).re + 0.9 * q.e_prime := by
    unfold energy
    ring
  have hx := execute_unlocked_eq q x hunlocked
  rw [estimate_gain_of_default q x htype] at hx
  rw [hx]
  dsimp only
  obtain ⟨he, hep, heh, hg⟩ := estimate_gain_default_fields q x
  obtain ⟨l_e, l_ep, l_eh, l_gmin, l_gmax, l_et⟩ :=
    limit_gain_fields (agc_estimate_gain_default q x)
  have hcfg := estimate_gain_default_config q x
  have hvalid2 : (agc_estimate_gain_default q x).g_min ≤
      (agc_estimate_gain_default q x).g_max := by
    rw [hcfg.1, hcfg.2.1]
    exact hvalid
  refine ⟨?_, ?_, ?_, ?_⟩
  · rw [l_e, he, energy_def]
  · rw [l_ep, hep, harg]
  · rw [l_eh, heh, harg]
  · rw [limit_gain_g_clamp _ hvalid2, hcfg.1, hcfg.2.1, hg, harg]

/-- C3 witness: on the fresh state switched to the default law, at x = 0, the
gain after one execute is exactly the clamped beta-alpha blend. -/
theorem execute_default_law_spec_witness :
    (agc_execute defaultState 0).1.g =
      max defaultState.g_min (min defaultState.g_max
        (defaultState.beta * defaultState.g + defaultState.alpha *
          (defaultState.e_target /
            Real.sqrt (0.1 * ((0 : ℂ) * (starRingEnd ℂ) 0).re +
              0.9 * defaultState.e_prime)))) :=
  (execute_default_law_spec defaultState 0 rfl rfl
    (by norm_num [defaultState, agc_create])).2.2.2

/-- C4: on an unlocked state under the exponential law, execute uses the
instantaneous energy with no smoothing (e_prime is untouched), moves the gain
by a relative step of size beta toward the target depending on whether the
output-level estimate overshoots e_target, and the final gain of execute is
that update clamped into the gain limits. -/
theorem execute_exp_law_spec (q : agc_s) (x : ℂ)
    (hunlocked : q.is_locked = false) (htype : q.type = liquid_agc_type.EXP)
    (hvalid : q.g_min ≤ q.g_max) :
    (agc_execute q x).1.e = (x * (starRingEnd ℂ) x).re ∧
    (agc_execute q x).1.e_hat = Real.sqrt ((x * (starRingEnd ℂ) x).re) ∧
    (agc_execute q x).1.e_prime = q.e_prime ∧
    (agc_estimate_gain_exp q x).g =
      (if Real.sqrt ((x * (starRingEnd ℂ) x).re) * q.g > q.e_target then
        q.g * (1 - q.beta *
          (Real.sqrt ((x * (starRingEnd ℂ) x).re) * q.g - q.e_target) /
          (Real.sqrt ((x * (starRingEnd ℂ) x).re) * q.g))
      else
        q.g * (1 + q.beta *
          (q.e_target - Real.sqrt ((x * (starRingEnd ℂ) x).re) * q.g) /
          q.e_target)) ∧
    (agc_execute q x).1.g =
      max q.g_min (min q.g_max (agc_estimate_gain_exp q x).g) := by
  have hx := execute_unlocked_eq q x hunlocked
  rw [estimate_gain_of_exp q x htype] at hx
  rw [hx]
  dsimp only
  obtain ⟨he, heh, hep, hg⟩ := estimate_gain_exp_fields q x
  obtain ⟨l_e, l_ep, l_eh, l_gmin, l_gmax, l_et⟩ :=
    limit_gain_fields (agc_estimate_gain_exp q x)
  have hcfg := estimate_gain_exp_config q x
  have hvalid2 : (agc_estimate_gain_exp q x).g_min ≤
      (agc_estimate_gain_exp q x).g_max := by
    rw [hcfg.1, hcfg.2.1]
    exact hvalid
  refine ⟨?_, ?_, ?_, ?_, ?_⟩
  · rw [l_e, he, energy_def]
  · rw [l_eh, heh, energy_def]
  · rw [l_ep, hep]
  · rw [hg, energy_def]
  · rw [limit_gain_g_clamp _ hvalid2, hcfg.1, hcfg.2.1]

/-- C4 witness: on the fresh state switched to the exponential law, at x = 0,
the smoothing memory e_prime is untouched by execute. -/
theorem execute_exp_law_spec_witness :
    (agc_execute expState 0).1.e_prime = expState.e_prime :=
  (execute_exp_law_spec expState 0 rfl rfl
    (by norm_num [expState, agc_create])).2.2.1

/-- C9: reset sets e_prime and e_hat to 1, clears the locked flag, and leaves
the gain and every configuration field unchanged. -/
theorem reset_spec (q : agc_s) :
    (agc_reset q).e_prime = 1 ∧ (agc_reset q).e_hat = 1 ∧
    (agc_reset q).is_locked = false ∧ (agc_reset q).g = q.g ∧
    (agc_reset q).type = q.type ∧ (agc_reset q).e_target = q.e_target ∧
    (agc_reset q).g_min = q.g_min ∧ (agc_reset q).g_max = q.g_max ∧
    (agc_reset q).BT = q.BT ∧ (agc_reset q).alpha = q.alpha ∧
    (agc_reset q).beta = q.beta :=
  ⟨rfl, rfl, rfl, rfl, rfl, rfl, rfl, rfl, rfl, rfl, rfl⟩

/-- C10: every state reachable from create through the public operations keeps
e_prime and e_target strictly positive, so every denominator execute divides by
(the updated e_hat in the default and logarithmic laws, e_out or e_target in
the exponential law) is nonzero: execute never divides by zero, for any input
sample including x = 0. -/
theorem reachable_no_division_by_zero (q : agc_s) (x : ℂ) (d : ℝ)
    (h : Reachable q) (hd : d ∈ agc_execute_divisors q x) :
    d ≠ 0 ∧ 0 < q.e_prime ∧ 0 < q.e_target := by
  obtain ⟨hp, ht⟩ := reachable_inv q h
  refine ⟨?_, hp, ht⟩
  cases hl : q.is_locked with
  | true =>
      rw [divisors_locked q x hl] at hd
      exact absurd hd (List.not_mem_nil d)
  | false =>
      cases htag : q.type with
      | DEFAULT =>
          rw [divisors_default q x hl htag, List.mem_singleton] at hd
          subst hd
          exact ne_of_gt (Real.sqrt_pos.mpr (smoothed_energy_pos x q.e_prime hp))
      | LOG =>
          rw [divisors_log q x hl htag, List.mem_singleton] at hd
          subst hd
          exact ne_of_gt (Real.sqrt_pos.mpr (smoothed_energy_pos x q.e_prime hp))
      | EXP =>
          rw [divisors_exp q x hl htag] at hd
          split_ifs at hd with hcond
          · rw [List.mem_singleton] at hd
            subst hd
            exact ne_of_gt (lt_trans ht hcond)
          · rw [List.mem_singleton] at hd
            subst hd
            exact ne_of_gt ht

/-- C10 witness: the fresh state is reachable, its filter memory and target are
positive, and the single denominator of an execute at x = 0 is nonzero. -/
theorem reachable_no_division_by_zero_witness :
    Real.sqrt (energy 0 * 0.1 + agc_create.e_prime * (1 - 0.1)) ≠ 0 ∧
    0 < agc_create.e_prime ∧ 0 < agc_create.e_target :=
  reachable_no_division_by_zero agc_create 0
    (Real.sqrt (energy 0 * 0.1 + agc_create.e_prime * (1 - 0.1)))
    Reachable.create (List.mem_singleton.mpr rfl)

end Agc
